import Mathlib

/-!
Verification of the precinct filter-and-assignment view model of the
`vaturfmaps` dashboards.  The definitions below are a shallow embedding of
the Python source: `src/app.py` (data loading, region/turf filtering, KPI
aggregation, turf summary, geometry join, turf colors) and
`src/old_apps/pappy3.py` (the Apply Changes / Reset All Changes assignment
editor).  A pandas DataFrame is embedded as a list of rows plus flags that
record which optional columns are present; a pandas cell that may be NaN is
embedded as an `Option`.
-/

namespace VaTurf

/-- One row of the precinct metrics table.  Columns follow
`output/precincts_metrics*.csv` as read by `load_metrics`:
`van_precinct_id` (normalized to a string), `van_precinct_name`,
`county_name`, `Current Region`, `Current Turf` (either may be NaN, hence
`Option`), `voters`, `supporters` and the precomputed bounding-box pieces. -/
structure Row where
  id : String
  name : String
  county : String
  region : Option String
  turf : Option String
  voters : Nat
  supporters : Nat
  minLat : Int
  minLon : Int
  maxLat : Int
  maxLon : Int
deriving Repr, DecidableEq

/-- A metrics DataFrame: its rows plus which optional columns exist.
`hasVoters` embeds the Python test `"voters" in df.columns`, likewise
`hasSupporters`.  The filtered frame (`filtered_metrics`) has the same shape,
so both the base table and a RowSet use this type. -/
structure RowSet where
  rows : List Row
  hasVoters : Bool
  hasSupporters : Bool
deriving Repr, DecidableEq

/-- The sidebar selection: `selected_regions` and `selected_turfs` as the
lists the multiselect widgets produce (after the sentinel has been
resolved, for the region list). -/
structure Selection where
  activeRegions : List String
  activeTurfs : List String
deriving Repr, DecidableEq

/-- Code-point lexicographic comparison of character lists: the order
Python's `sorted` applies to strings. -/
def charListLe : List Char → List Char → Bool
  | [], _ => true
  | _ :: _, [] => false
  | a :: as, b :: bs =>
      if a.val < b.val then true
      else if b.val < a.val then false
      else charListLe as bs

/-- String comparison by code points, matching Python's `str` ordering. -/
def strLe (a b : String) : Bool := charListLe a.data b.data

/-- Ascending sort of the distinct elements of a list: the embedding of
`sorted(series.dropna().unique())` applied to the non-null values that the
caller extracts with `filterMap`. -/
def sortedDedup (l : List String) : List String :=
  l.dedup.insertionSort (fun a b => strLe a b = true)

/-- `row["Current Region"] in selected_regions` as evaluated by
`df["Current Region"].isin(selected_regions)`: a NaN region matches no
selected region. -/
def regionPasses (sel : List String) (r : Row) : Bool :=
  match r.region with
  | some x => sel.contains x
  | none => false

/-- `row["Current Turf"] in selected_turfs`; a NaN turf matches nothing. -/
def turfPasses (sel : List String) (r : Row) : Bool :=
  match r.turf with
  | some x => sel.contains x
  | none => false

/-- The filter block of `src/app.py` lines 60-65: if no region is selected
the result is an empty frame with the same columns; otherwise keep rows whose
region is selected, and additionally restrict by turf when any turf is
selected. -/
def filterRows (D : RowSet) (S : Selection) : RowSet :=
  if S.activeRegions.isEmpty then
    { D with rows := [] }
  else
    let byRegion := D.rows.filter (regionPasses S.activeRegions)
    if S.activeTurfs.isEmpty then
      { D with rows := byRegion }
    else
      { D with rows := byRegion.filter (turfPasses S.activeTurfs) }

/-- `regions = sorted(df_metrics["Current Region"].dropna().unique())`
(`src/app.py` line 40): the list the "VA All Regions" sentinel expands to. -/
def allRegions (D : RowSet) : List String :=
  sortedDedup (D.rows.filterMap (fun r => r.region))

/-- The selection produced by choosing the "VA All Regions" sentinel and no
turfs (`src/app.py` lines 43-47 with `selected_turfs = []`). -/
def sentinelSelection (D : RowSet) : Selection :=
  { activeRegions := allRegions D, activeTurfs := [] }

end VaTurf

namespace VaTurf

/-- Sample data: small concrete rows used by witnesses and counterexamples. -/
def mkRow (id : String) (region turf : Option String) (voters supporters : Nat) : Row :=
  { id := id, name := id, county := "c", region := region, turf := turf,
    voters := voters, supporters := supporters,
    minLat := 0, minLon := 0, maxLat := 0, maxLon := 0 }

/-- A two-row table over regions "R1"/"R2", used by the C1 witness. -/
def sampleD1 : RowSet :=
  { rows := [mkRow "P1" (some "R1") (some "T1") 10 4,
             mkRow "P2" (some "R2") (some "T2") 20 6],
    hasVoters := true, hasSupporters := true }

/-- Selection of region "R1" only, used by the C1 witness. -/
def sampleS1 : Selection := { activeRegions := ["R1"], activeTurfs := [] }

/-- A table whose single row has a NaN region, used by the C2 counterexample. -/
def sampleD2 : RowSet :=
  { rows := [mkRow "P1" none (some "T1") 10 4],
    hasVoters := true, hasSupporters := true }

end VaTurf

namespace VaTurf

/-- Sum of the `voters` column over a frame's rows
(`filtered_metrics["voters"].sum()`). -/
def sumVoters (rs : RowSet) : Nat :=
  (rs.rows.map (fun r => r.voters)).sum

/-- Sum of the `supporters` column over a frame's rows. -/
def sumSupporters (rs : RowSet) : Nat :=
  (rs.rows.map (fun r => r.supporters)).sum

/-- The "Total Precincts in Filter" KPI: `len(filtered_metrics)`
(`src/app.py` line 72). -/
def precinctCount (rs : RowSet) : Nat := rs.rows.length

/-- The "Total Voters in Filter" KPI (`src/app.py` line 76):
the voters sum when the column exists, the literal 0 otherwise. -/
def totalVoters (rs : RowSet) : Nat :=
  if rs.hasVoters then sumVoters rs else 0

/-- The "Support Rate" KPI (`src/app.py` lines 79-82): when both the
`supporters` and `voters` columns exist and the voters sum is positive the
rate `sum(supporters)/sum(voters)` is shown, otherwise the distinguished
"N/A" value, embedded as `none`. -/
def supportRate (rs : RowSet) : Option ℚ :=
  if rs.hasSupporters = true ∧ rs.hasVoters = true ∧ 0 < sumVoters rs then
    some ((sumSupporters rs : ℚ) / (sumVoters rs : ℚ))
  else
    none

/-- One line of the "Breakdown by Turf" table. -/
structure TurfEntry where
  turf : String
  votersSum : Nat
  supportersSum : Nat
  precincts : Nat
deriving Repr, DecidableEq

/-- The distinct non-null turfs a `groupby("Current Turf")` groups on,
in ascending order (`.sort_index()`); pandas silently drops rows whose
group key is NaN. -/
def turfGroups (rs : RowSet) : List String :=
  sortedDedup (rs.rows.filterMap (fun r => r.turf))

/-- `turf_summary` (`src/app.py` lines 207-215): group the filtered frame by
`Current Turf` (NaN-turf rows are dropped by pandas), aggregating the voters
and supporters sums — with the `van_precinct_id` size fallback when the
column is missing — and the precinct count, sorted by turf ascending. -/
def turfSummary (rs : RowSet) : List TurfEntry :=
  (turfGroups rs).map (fun t =>
    let grp := rs.rows.filter (fun r => r.turf == some t)
    { turf := t,
      votersSum := if rs.hasVoters then (grp.map (fun r => r.voters)).sum else grp.length,
      supportersSum :=
        if rs.hasSupporters then (grp.map (fun r => r.supporters)).sum else grp.length,
      precincts := grp.length })

/-- A frame whose single row has a NaN turf but 5 voters: its voters count
toward `total_voters` but it belongs to no turf group. -/
def sampleD3a : RowSet :=
  { rows := [mkRow "P1" (some "R1") none 5 1],
    hasVoters := true, hasSupporters := true }

/-- A frame with the `voters` column absent entirely: `total_voters` is 0
while the per-turf table falls back to counting rows. -/
def sampleD3b : RowSet :=
  { rows := [mkRow "P1" (some "R1") (some "T1") 0 0],
    hasVoters := false, hasSupporters := false }

/-- A two-turf frame with all fields present, used by aggregator witnesses. -/
def sampleD4 : RowSet :=
  { rows := [mkRow "P1" (some "R1") (some "T1") 10 4,
             mkRow "P2" (some "R1") (some "T2") 20 6,
             mkRow "P3" (some "R1") (some "T1") 2 1],
    hasVoters := true, hasSupporters := true }

end VaTurf

namespace VaTurf

/-- One row of the `edited_df` the data editor hands back in
`src/old_apps/pappy3.py`: the precinct id plus the `Updated Region` and
`Updated Turf` cells, which are `None` (NaN) unless the user picked a value. -/
structure StagedEdit where
  pid : String
  updRegion : Option String
  updTurf : Option String
deriving Repr, DecidableEq

/-- The session state of the editor: `st.session_state.master_df` (the
working copy) and `st.session_state.changed_precincts`.  The Python set is
embedded as a duplicate-free insertion list. -/
structure EditorState where
  master : List Row
  changed : List String
deriving Repr, DecidableEq

/-- `set.add`: insert a precinct id if it is not already tracked. -/
def insertChanged (l : List String) (x : String) : List String :=
  if l.contains x then l else l ++ [x]

/-- The effect of one edited row on one master row
(`pappy3.py` lines 332-339): rows whose `van_precinct_id` matches the mask
get their `Current Region` / `Current Turf` overwritten by whichever staged
value is non-null; other rows are untouched. -/
def updateRow (e : StagedEdit) (r : Row) : Row :=
  if r.id == e.pid then
    { r with region := (e.updRegion).or r.region, turf := (e.updTurf).or r.turf }
  else r

/-- One iteration of the Apply Changes loop (`pappy3.py` lines 327-343):
if the edited row staged at least one non-null value, update every matching
master row, add the id to the changed set (this happens whether or not any
master row matched), and record that updates were made. -/
def applyOne (st : EditorState × Bool) (e : StagedEdit) : EditorState × Bool :=
  if (e.updRegion).isSome || (e.updTurf).isSome then
    ({ master := st.1.master.map (updateRow e),
       changed := insertChanged st.1.changed e.pid }, true)
  else st

/-- The Apply Changes button (`pappy3.py` lines 324-349): fold the edited
rows over the session state, starting with `updates_made = False`.  The
returned flag drives the "Changes applied!" versus "No changes to apply"
message. -/
def applyChanges (st : EditorState) (edits : List StagedEdit) : EditorState × Bool :=
  edits.foldl applyOne (st, false)

/-- The Reset All Changes button (`pappy3.py` lines 352-359): when the
changed set is non-empty, reload the untouched dataset and clear the set
(flag `true`); otherwise do nothing and show "No changes to reset"
(flag `false`). -/
def resetChanges (original : List Row) (st : EditorState) : EditorState × Bool :=
  if st.changed.isEmpty then (st, false)
  else ({ master := original, changed := [] }, true)

/-- Whether some edited row staged a non-null value for this precinct id:
the precincts the Apply Changes loop acts on. -/
def hasStagedValue (edits : List StagedEdit) (pid : String) : Bool :=
  edits.any (fun e => e.pid == pid && ((e.updRegion).isSome || (e.updTurf).isSome))

/-- The rows-to-row residue of the Apply Changes fold: the cumulative effect
of a list of edited rows on a single master row, in order. -/
def applyEditsRow (edits : List StagedEdit) (r : Row) : Row :=
  edits.foldl
    (fun acc e =>
      if (e.updRegion).isSome || (e.updTurf).isSome then updateRow e acc else acc) r

/-- Agreement on every column other than `Current Region` / `Current Turf`:
the frame Apply Changes must preserve on all rows. -/
def sameFrame (r r' : Row) : Prop :=
  r.id = r'.id ∧ r.name = r'.name ∧ r.county = r'.county ∧
    r.voters = r'.voters ∧ r.supporters = r'.supporters ∧
    r.minLat = r'.minLat ∧ r.minLon = r'.minLon ∧
    r.maxLat = r'.maxLat ∧ r.maxLon = r'.maxLon

/-- Placeholder row used as the out-of-range default for positional access. -/
def defaultRow : Row := mkRow "" none none 0 0

/-- One GeoJSON feature as the join sees it: the normalized
`van_precinct_id` property and the denormalized `Current Turf` display
property (absent in some shards, hence `Option`). -/
structure Feature where
  pid : String
  turf : Option String
deriving Repr, DecidableEq

/-- `filtered_features` (`src/app.py` lines 101-104): the empty list when
nothing is selected, otherwise the features whose id is among the filtered
rows' ids. -/
def filteredFeatures (rs : RowSet) (features : List Feature) : List Feature :=
  if 0 < rs.rows.length then
    features.filter (fun f => (rs.rows.map (fun r => r.id)).contains f.pid)
  else []

/-- The fixed 20-color palette of `src/app.py` lines 87-92. -/
def palette : List String :=
  ["#e41a1c", "#377eb8", "#4daf4a", "#984ea3", "#ff7f00",
   "#ffff33", "#a65628", "#f781bf", "#999999", "#66c2a5",
   "#fc8d62", "#8da0cb", "#e78ac3", "#a6d854", "#ffd92f",
   "#e5c494", "#b3b3b3", "#1b9e77", "#d95f02", "#7570b3"]

/-- `unique_turfs` (`src/app.py` line 93): the sorted distinct non-null
turfs of the filtered frame, or `[]` when the frame is empty. -/
def uniqueTurfs (rs : RowSet) : List String :=
  if 0 < rs.rows.length then sortedDedup (rs.rows.filterMap (fun r => r.turf)) else []

/-- The dict comprehension `{t: palette[i % len(palette)] for i, t in
enumerate(unique_turfs)}`, unrolled with the running index explicit. -/
def assignColors : Nat → List String → List (String × String)
  | _, [] => []
  | i, t :: ts => (t, palette.getD (i % palette.length) "#3388ff") :: assignColors (i + 1) ts

/-- `turf_colors_map` (`src/app.py` line 94). -/
def turfColorsMap (rs : RowSet) : List (String × String) :=
  assignColors 0 (uniqueTurfs rs)

/-- Python `dict.get(k, d)` on an association list. -/
def dictGet (m : List (String × String)) (k : String) (d : String) : String :=
  ((m.find? (fun p => p.1 == k)).map (fun p => p.2)).getD d

/-- The fill color the folium style function gives a feature
(`src/app.py` lines 117-118): look its `Current Turf` property up in
`turf_colors_map`, falling back to the folium default blue. -/
def styleFillColor (rs : RowSet) (f : Feature) : String :=
  match f.turf with
  | some t => dictGet (turfColorsMap rs) t "#3388ff"
  | none => "#3388ff"

/-- `all_turfs` of the precinct chart (`src/app.py` line 183): the sorted
distinct non-null turfs of `hist_df`, which holds the same rows as
`filtered_metrics`. -/
def allTurfsChart (rs : RowSet) : List String :=
  sortedDedup (rs.rows.filterMap (fun r => r.turf))

/-- `color_map_precinct` (`src/app.py` line 184):
`{t: turf_colors_map.get(t, palette[i % len(palette)]) for i, t in
enumerate(all_turfs)}`. -/
def assignColorsChart (rs : RowSet) : Nat → List String → List (String × String)
  | _, [] => []
  | i, t :: ts =>
      (t, dictGet (turfColorsMap rs) t (palette.getD (i % palette.length) "#3388ff"))
        :: assignColorsChart rs (i + 1) ts

/-- The chart's turf-to-color dict, built over `all_turfs`. -/
def colorMapPrecinct (rs : RowSet) : List (String × String) :=
  assignColorsChart rs 0 (allTurfsChart rs)

/-- The distinct turfs of the joined feature subset, sorted ascending: the
set the claim's color rule quantifies over (stated from the spec's words,
for comparison against the code's `unique_turfs`, which is computed from the
filtered rows instead). -/
def joinedTurfs (rs : RowSet) (features : List Feature) : List String :=
  sortedDedup ((filteredFeatures rs features).filterMap (fun f => f.turf))

end VaTurf

namespace VaTurf

/-- A two-row working copy for the editor claims. -/
def sampleMaster : List Row :=
  [mkRow "P1" (some "RA") (some "TX") 100 40,
   mkRow "P2" (some "RA") (some "TY") 50 10]

/-- An edited row staging a region for the known precinct "P1". -/
def sampleEditKnown : StagedEdit :=
  { pid := "P1", updRegion := some "RB", updTurf := none }

/-- An edited row staging a region for an id absent from `sampleMaster`. -/
def sampleEditUnknown : StagedEdit :=
  { pid := "P9", updRegion := some "RB", updTurf := none }

/-- A one-row RowSet for the geometry-join claims. -/
def sampleD7 : RowSet :=
  { rows := [mkRow "P1" (some "R1") (some "T1") 1 1],
    hasVoters := true, hasSupporters := true }

/-- Two distinct-by-value features sharing the id "P1". -/
def sampleFeats7 : List Feature :=
  [{ pid := "P1", turf := none }, { pid := "P1", turf := some "T1" }]

/-- A duplicate-free feature collection: one matching id, one not. -/
def sampleFeats7b : List Feature :=
  [{ pid := "P1", turf := some "T1" }, { pid := "P2", turf := some "T2" }]

/-- A two-turf RowSet whose turf "TB" sorts second. -/
def sampleD8 : RowSet :=
  { rows := [mkRow "P1" (some "R1") (some "TA") 1 1,
             mkRow "P2" (some "R1") (some "TB") 1 1],
    hasVoters := true, hasSupporters := true }

/-- A feature collection containing only the "TB" precinct, so "TB" sorts
first among the joined features' turfs. -/
def sampleFeats8 : List Feature := [{ pid := "P2", turf := some "TB" }]

end VaTurf

namespace VaTurf

theorem mem_sortedDedup {x : String} {l : List String} :
    x ∈ sortedDedup l ↔ x ∈ l := by
  unfold sortedDedup
  rw [(List.perm_insertionSort (fun a b => strLe a b = true) l.dedup).mem_iff, List.mem_dedup]

theorem nodup_sortedDedup (l : List String) : (sortedDedup l).Nodup :=
  (List.perm_insertionSort (fun a b => strLe a b = true) l.dedup).nodup_iff.mpr l.nodup_dedup

/-- C1.  Filter contract: a row of `D` is in `filter(D,S)` iff its region is
among the selected regions and (no turf is selected, or its turf is among
the selected turfs); and an empty region selection always yields the empty
RowSet. -/
theorem filter_contract (D : RowSet) (S : Selection) :
    (∀ r ∈ D.rows,
      (r ∈ (filterRows D S).rows ↔
        regionPasses S.activeRegions r = true ∧
          (S.activeTurfs = [] ∨ turfPasses S.activeTurfs r = true)))
    ∧ (S.activeRegions = [] → (filterRows D S).rows = []) := by
  constructor
  · intro r hr
    unfold filterRows
    by_cases hR : S.activeRegions.isEmpty
    · rw [if_pos hR]
      have hRnil : S.activeRegions = [] := List.isEmpty_iff.mp hR
      constructor
      · intro h; exact absurd h (List.not_mem_nil r)
      · rintro ⟨hreg, -⟩
        unfold regionPasses at hreg
        cases hreg' : r.region with
        | none => rw [hreg'] at hreg; exact absurd hreg (by simp)
        | some x =>
          rw [hreg', hRnil] at hreg
          exact absurd hreg (by simp [List.contains])
    · rw [if_neg hR]
      by_cases hT : S.activeTurfs.isEmpty
      · rw [if_pos hT]
        have hTnil : S.activeTurfs = [] := List.isEmpty_iff.mp hT
        show r ∈ List.filter (regionPasses S.activeRegions) D.rows ↔ _
        simp [List.mem_filter, hr, hTnil]
      · rw [if_neg hT]
        have hTnil : S.activeTurfs ≠ [] := fun h => hT (by simp [h])
        show r ∈ List.filter (turfPasses S.activeTurfs)
              (List.filter (regionPasses S.activeRegions) D.rows) ↔ _
        simp only [List.mem_filter, hTnil, false_or]
        tauto
  · intro h
    unfold filterRows
    simp [h]

/-- C1 witness: the contract evaluated on a concrete table and selection. -/
theorem filter_contract_witness :
    mkRow "P1" (some "R1") (some "T1") 10 4 ∈ (filterRows sampleD1 sampleS1).rows ↔
      regionPasses sampleS1.activeRegions (mkRow "P1" (some "R1") (some "T1") 10 4) = true ∧
        (sampleS1.activeTurfs = [] ∨
          turfPasses sampleS1.activeTurfs (mkRow "P1" (some "R1") (some "T1") 10 4) = true) :=
  (filter_contract sampleD1 sampleS1).1 _ (by decide)

/-- C2 counterexample: on a table whose one row has a NaN region, the
"VA All Regions" sentinel (which expands only to the non-null distinct
regions) selects nothing, so the round trip loses the row: the claimed
count equality fails. -/
theorem sentinel_roundtrip_cex :
    ¬ ((filterRows sampleD2 (sentinelSelection sampleD2)).rows.length
          = sampleD2.rows.length
        ∧ ∀ x : String,
            (x ∈ (filterRows sampleD2 (sentinelSelection sampleD2)).rows.map (fun r => r.id) ↔
              x ∈ sampleD2.rows.map (fun r => r.id))) := by
  intro h
  exact absurd h.1 (by decide)

/-- C2 amended: for every dataset whose rows all carry a non-null region,
filtering with the "VA All Regions" sentinel and an empty turf selection
returns exactly the rows of the dataset (row-count equality and id-set
equality). -/
theorem sentinel_roundtrip_amended (D : RowSet)
    (h : ∀ r ∈ D.rows, (r.region).isSome = true) :
    (filterRows D (sentinelSelection D)).rows.length = D.rows.length
    ∧ ∀ x : String,
        (x ∈ (filterRows D (sentinelSelection D)).rows.map (fun r => r.id) ↔
          x ∈ D.rows.map (fun r => r.id)) := by
  have hrows : (filterRows D (sentinelSelection D)).rows = D.rows := by
    unfold filterRows sentinelSelection
    by_cases hR : (allRegions D).isEmpty
    · have hRnil : allRegions D = [] := List.isEmpty_iff.mp hR
      have hDnil : D.rows = [] := by
        cases hD : D.rows with
        | nil => rfl
        | cons r rs =>
          have hr : r ∈ D.rows := by rw [hD]; exact List.mem_cons_self r rs
          have hs := h r hr
          cases hreg : r.region with
          | none => rw [hreg] at hs; exact absurd hs (by simp)
          | some x =>
            have : x ∈ allRegions D := by
              unfold allRegions
              rw [mem_sortedDedup, List.mem_filterMap]
              exact ⟨r, hr, hreg⟩
            rw [hRnil] at this
            exact absurd this (List.not_mem_nil x)
      simp [hR, hDnil]
    · simp only [hR, if_false, List.isEmpty_nil, if_true]
      apply List.filter_eq_self.mpr
      intro r hr
      have hs := h r hr
      cases hreg : r.region with
      | none => rw [hreg] at hs; exact absurd hs (by simp)
      | some x =>
        unfold regionPasses
        rw [hreg]
        have : x ∈ allRegions D := by
          unfold allRegions
          rw [mem_sortedDedup, List.mem_filterMap]
          exact ⟨r, hr, hreg⟩
        simpa [List.contains] using this
  rw [hrows]
  exact ⟨rfl, fun _ => Iff.rfl⟩

/-- C2 witness: the amended round trip on a concrete all-regions-present
table. -/
theorem sentinel_roundtrip_witness :
    (filterRows sampleD1 (sentinelSelection sampleD1)).rows.length = sampleD1.rows.length
    ∧ ∀ x : String,
        (x ∈ (filterRows sampleD1 (sentinelSelection sampleD1)).rows.map (fun r => r.id) ↔
          x ∈ sampleD1.rows.map (fun r => r.id)) :=
  sentinel_roundtrip_amended sampleD1 (by decide)

end VaTurf

namespace VaTurf

theorem sum_map_add {α : Type} (l : List α) (f g : α → Nat) :
    (l.map (fun x => f x + g x)).sum = (l.map f).sum + (l.map g).sum := by
  induction l with
  | nil => simp
  | cons a l ih => simp only [List.map_cons, List.sum_cons, ih]; omega

theorem length_eq_sum_map_one {α : Type} (l : List α) :
    l.length = (l.map (fun _ => (1 : Nat))).sum := by
  induction l with
  | nil => rfl
  | cons a l ih => rw [List.map_cons, List.sum_cons, List.length_cons, ih]; omega

theorem sum_ite_mem (ks : List String) (t0 : String) (c : Nat)
    (hnd : ks.Nodup) (hm : t0 ∈ ks) :
    (ks.map (fun t => if t0 = t then c else 0)).sum = c := by
  induction ks with
  | nil => exact absurd hm (List.not_mem_nil t0)
  | cons a ks ih =>
    rw [List.nodup_cons] at hnd
    rcases List.mem_cons.mp hm with h | h
    · subst h
      rw [List.map_cons, List.sum_cons]
      have hz : ∀ x ∈ ks.map (fun t => if t0 = t then c else 0), x = 0 := by
        intro x hx
        rcases List.mem_map.mp hx with ⟨t, ht, rfl⟩
        rw [if_neg]; intro he; exact hnd.1 (he ▸ ht)
      rw [List.sum_eq_zero hz, if_pos rfl]
      omega
    · have hne : t0 ≠ a := fun he => hnd.1 (he ▸ h)
      simp only [List.map_cons, List.sum_cons, if_neg hne, Nat.zero_add]
      exact ih hnd.2 h

/-- Summing a per-row quantity group by group, over a duplicate-free list of
keys that covers every non-null turf, totals the quantity over the rows whose
turf is non-null — the list form of the pandas groupby-total identity. -/
theorem sum_over_groups (ks : List String) (rows : List Row) (v : Row → Nat)
    (hnd : ks.Nodup)
    (hc : ∀ r ∈ rows, ∀ t, r.turf = some t → t ∈ ks) :
    (ks.map (fun t => ((rows.filter (fun r => r.turf == some t)).map v).sum)).sum
      = ((rows.filter (fun r => (r.turf).isSome)).map v).sum := by
  induction rows with
  | nil => simp
  | cons r rows ih =>
    have hc' : ∀ r' ∈ rows, ∀ t, r'.turf = some t → t ∈ ks :=
      fun r' h t ht => hc r' (List.mem_cons_of_mem r h) t ht
    have key : ∀ t : String,
        (((r :: rows).filter (fun r => r.turf == some t)).map v).sum
          = (if r.turf == some t then v r else 0)
            + ((rows.filter (fun r => r.turf == some t)).map v).sum := by
      intro t
      rw [List.filter_cons]
      cases hb : (r.turf == some t) with
      | true => simp [hb]
      | false => simp [hb]
    have step1 :
        (ks.map (fun t => (((r :: rows).filter (fun r => r.turf == some t)).map v).sum)).sum
          = (ks.map (fun t => (if r.turf == some t then v r else 0)
              + ((rows.filter (fun r => r.turf == some t)).map v).sum)).sum := by
      exact congrArg _ (List.map_congr_left (fun t _ => key t))
    have step2 :
        (ks.map (fun t => (if r.turf == some t then v r else 0)
            + ((rows.filter (fun r => r.turf == some t)).map v).sum)).sum
          = (ks.map (fun t => if r.turf == some t then v r else 0)).sum
            + (ks.map (fun t => ((rows.filter (fun r => r.turf == some t)).map v).sum)).sum :=
      sum_map_add ks _ _
    have head : (ks.map (fun t => if r.turf == some t then v r else 0)).sum
        = if (r.turf).isSome then v r else 0 := by
      cases hrt : r.turf with
      | none =>
        have hz : ∀ x ∈ ks.map (fun t => if ((none == some t : Bool)) = true then v r else 0),
            x = 0 := by
          intro x hx
          rcases List.mem_map.mp hx with ⟨t, -, rfl⟩
          rw [if_neg]; simp
        rw [List.sum_eq_zero hz]; simp
      | some t0 =>
        have hmem : t0 ∈ ks := hc r (List.mem_cons_self r rows) t0 hrt
        have hcong : ks.map (fun t => if ((some t0 == some t : Bool)) = true then v r else 0)
            = ks.map (fun t => if t0 = t then v r else 0) := by
          apply List.map_congr_left
          intro t _
          by_cases h : t0 = t
          · rw [if_pos (by simp [h]), if_pos h]
          · rw [if_neg (by simp [h]), if_neg h]
        rw [hcong, sum_ite_mem ks t0 (v r) hnd hmem]
        simp
    have rhs : (((r :: rows).filter (fun r => (r.turf).isSome)).map v).sum
        = (if (r.turf).isSome then v r else 0)
          + ((rows.filter (fun r => (r.turf).isSome)).map v).sum := by
      rw [List.filter_cons]
      cases hb : ((r.turf).isSome : Bool) with
      | true => simp [hb]
      | false => simp [hb]
    rw [step1, step2, head, rhs, ih hc']

/-- C3 counterexample: two concrete violations of the sum invariant.  A row
with a NaN turf contributes its 5 voters to `total_voters` but to no turf
group, so the per-turf sums total 0 ≠ 5; and when the `voters` column is
absent the per-turf table falls back to row counts (1) while `total_voters`
is 0. -/
theorem turf_sum_invariant_cex :
    (¬ ((turfSummary sampleD3a).map (fun e => e.votersSum)).sum = totalVoters sampleD3a)
    ∧ ¬ ((turfSummary sampleD3b).map (fun e => e.votersSum)).sum = totalVoters sampleD3b := by
  decide

/-- C3 amended: the per-turf voters sums total `total_voters` for every
RowSet whose rows all have a non-null turf and whose `voters` column is
present; and whenever the `voters` column is absent, `total_voters` is 0. -/
theorem turf_sum_invariant_amended (rs : RowSet) :
    ((∀ r ∈ rs.rows, (r.turf).isSome = true) → rs.hasVoters = true →
      ((turfSummary rs).map (fun e => e.votersSum)).sum = totalVoters rs)
    ∧ (rs.hasVoters = false → totalVoters rs = 0) := by
  constructor
  · intro hall hv
    have hnd : (turfGroups rs).Nodup := nodup_sortedDedup _
    have hc : ∀ r ∈ rs.rows, ∀ t, r.turf = some t → t ∈ turfGroups rs := by
      intro r hr t ht
      unfold turfGroups
      rw [mem_sortedDedup, List.mem_filterMap]
      exact ⟨r, hr, ht⟩
    have hmain := sum_over_groups (turfGroups rs) rs.rows (fun r => r.voters) hnd hc
    have hfe : rs.rows.filter (fun r => (r.turf).isSome) = rs.rows :=
      List.filter_eq_self.mpr hall
    rw [hfe] at hmain
    calc ((turfSummary rs).map (fun e => e.votersSum)).sum
        = ((turfGroups rs).map (fun t =>
            ((rs.rows.filter (fun r => r.turf == some t)).map (fun r => r.voters)).sum)).sum := by
          unfold turfSummary
          rw [List.map_map]
          apply congrArg
          apply List.map_congr_left
          intro t _
          simp [hv]
      _ = (rs.rows.map (fun r => r.voters)).sum := hmain
      _ = totalVoters rs := by unfold totalVoters sumVoters; rw [if_pos hv]
  · intro hv
    unfold totalVoters
    rw [hv]
    simp

/-- C3 witness: the amended invariant evaluated on a concrete three-row,
two-turf frame. -/
theorem turf_sum_invariant_witness :
    ((turfSummary sampleD4).map (fun e => e.votersSum)).sum = totalVoters sampleD4 :=
  (turf_sum_invariant_amended sampleD4).1 (by decide) rfl

/-- C4.  Support rate: exactly `sum(supporters)/sum(voters)` when both
columns exist and the voters sum is positive, and the distinguished `none`
("N/A") in every other case, the empty RowSet included — the code never
divides by zero and never reports a spurious 0 rate. -/
theorem support_rate_spec (rs : RowSet) :
    (rs.hasSupporters = true → rs.hasVoters = true → 0 < sumVoters rs →
      supportRate rs = some ((sumSupporters rs : ℚ) / (sumVoters rs : ℚ)))
    ∧ ((¬ (rs.hasSupporters = true ∧ rs.hasVoters = true ∧ 0 < sumVoters rs)) →
      supportRate rs = none)
    ∧ (rs.rows = [] → supportRate rs = none) := by
  refine ⟨fun h1 h2 h3 => ?_, fun h => ?_, fun h => ?_⟩
  · unfold supportRate; rw [if_pos ⟨h1, h2, h3⟩]
  · unfold supportRate; rw [if_neg h]
  · unfold supportRate
    rw [if_neg]
    rintro ⟨-, -, h3⟩
    unfold sumVoters at h3
    rw [h] at h3
    simp at h3

/-- C4 witness: the defined case evaluated on a concrete frame. -/
theorem support_rate_witness :
    supportRate sampleD4 = some ((sumSupporters sampleD4 : ℚ) / (sumVoters sampleD4 : ℚ)) :=
  (support_rate_spec sampleD4).1 rfl rfl (by decide)

/-- C10.  Rows with a NaN turf are silently dropped by the
`groupby("Current Turf")`: the per-turf precinct counts total the number of
rows with a non-null turf — which can be strictly below the RowSet's row
count — while every row still counts toward the precinct-count KPI and the
voters of every row still count toward `total_voters`. -/
theorem null_turf_exclusion (rs : RowSet) :
    ((turfSummary rs).map (fun e => e.precincts)).sum
        = (rs.rows.filter (fun r => (r.turf).isSome)).length
    ∧ precinctCount rs = rs.rows.length
    ∧ (rs.hasVoters = true → totalVoters rs = (rs.rows.map (fun r => r.voters)).sum)
    ∧ ∃ rs2 : RowSet,
        ((turfSummary rs2).map (fun e => e.precincts)).sum < precinctCount rs2 := by
  refine ⟨?_, rfl, fun hv => ?_, ⟨sampleD3a, by decide⟩⟩
  · have hnd : (turfGroups rs).Nodup := nodup_sortedDedup _
    have hc : ∀ r ∈ rs.rows, ∀ t, r.turf = some t → t ∈ turfGroups rs := by
      intro r hr t ht
      unfold turfGroups
      rw [mem_sortedDedup, List.mem_filterMap]
      exact ⟨r, hr, ht⟩
    have hmain := sum_over_groups (turfGroups rs) rs.rows (fun _ => (1 : Nat)) hnd hc
    calc ((turfSummary rs).map (fun e => e.precincts)).sum
        = ((turfGroups rs).map (fun t =>
            ((rs.rows.filter (fun r => r.turf == some t)).map (fun _ => (1 : Nat))).sum)).sum := by
          unfold turfSummary
          rw [List.map_map]
          apply congrArg
          apply List.map_congr_left
          intro t _
          simp only [Function.comp]
          rw [← length_eq_sum_map_one]
      _ = ((rs.rows.filter (fun r => (r.turf).isSome)).map (fun _ => (1 : Nat))).sum := hmain
      _ = (rs.rows.filter (fun r => (r.turf).isSome)).length :=
          (length_eq_sum_map_one _).symm
  · unfold totalVoters sumVoters; rw [if_pos hv]

/-- C10 witness: the `total_voters` contribution of the NaN-turf frame. -/
theorem null_turf_exclusion_witness :
    totalVoters sampleD3a = (sampleD3a.rows.map (fun r => r.voters)).sum :=
  (null_turf_exclusion sampleD3a).2.2.1 rfl

end VaTurf

namespace VaTurf

theorem updateRow_id (e : StagedEdit) (r : Row) : (updateRow e r).id = r.id := by
  unfold updateRow
  split <;> rfl

theorem mem_insertChanged_self (l : List String) (x : String) : x ∈ insertChanged l x := by
  unfold insertChanged
  split
  · next h => exact List.elem_iff.mp h
  · exact List.mem_append_right l (List.mem_singleton.mpr rfl)

theorem insertChanged_not_isEmpty (l : List String) (x : String) :
    (insertChanged l x).isEmpty = false := by
  unfold insertChanged
  split
  · next h =>
    have hx : x ∈ l := List.elem_iff.mp h
    cases l with
    | nil => exact absurd hx (List.not_mem_nil x)
    | cons a l => rfl
  · cases l <;> rfl

/-- C5.  Assignment Editor round trip: staging a region `R` for a precinct
id present in the working copy and applying sets that row's region to `R`
and records the id as changed; a subsequent reset restores the untouched
dataset wholesale (hence the row's original region) and empties the
changed set. -/
theorem assignment_roundtrip (D : List Row) (C : List String) (pid R : String)
    (hp : pid ∈ D.map (fun r => r.id)) :
    (∀ r ∈ (applyChanges ⟨D, C⟩ [⟨pid, some R, none⟩]).1.master,
        r.id = pid → r.region = some R)
    ∧ (∃ r ∈ (applyChanges ⟨D, C⟩ [⟨pid, some R, none⟩]).1.master, r.id = pid)
    ∧ pid ∈ (applyChanges ⟨D, C⟩ [⟨pid, some R, none⟩]).1.changed
    ∧ (resetChanges D (applyChanges ⟨D, C⟩ [⟨pid, some R, none⟩]).1).1.master = D
    ∧ (resetChanges D (applyChanges ⟨D, C⟩ [⟨pid, some R, none⟩]).1).1.changed = [] := by
  have h1 : applyChanges ⟨D, C⟩ [⟨pid, some R, none⟩]
      = ({ master := D.map (updateRow ⟨pid, some R, none⟩),
           changed := insertChanged C pid }, true) := rfl
  refine ⟨?_, ?_, ?_, ?_, ?_⟩
  · intro r hr hid
    rw [h1] at hr
    rcases List.mem_map.mp hr with ⟨r0, hr0, rfl⟩
    unfold updateRow at hid ⊢
    by_cases hb : (r0.id == (⟨pid, some R, none⟩ : StagedEdit).pid) = true
    · rw [if_pos hb]; rfl
    · rw [if_neg hb] at hid
      exact absurd (by simp [hid] : (r0.id == (⟨pid, some R, none⟩ : StagedEdit).pid) = true) hb
  · rcases List.mem_map.mp hp with ⟨r0, hr0, hid0⟩
    refine ⟨updateRow ⟨pid, some R, none⟩ r0, ?_, ?_⟩
    · rw [h1]
      exact List.mem_map.mpr ⟨r0, hr0, rfl⟩
    · rw [updateRow_id]
      exact hid0
  · rw [h1]
    exact mem_insertChanged_self C pid
  · rw [h1]
    unfold resetChanges
    rw [if_neg (by rw [insertChanged_not_isEmpty]; simp)]
  · rw [h1]
    unfold resetChanges
    rw [if_neg (by rw [insertChanged_not_isEmpty]; simp)]

/-- C5 witness: the round trip on a concrete two-row working copy. -/
theorem assignment_roundtrip_witness :
    (∀ r ∈ (applyChanges ⟨sampleMaster, []⟩ [⟨"P1", some "RB", none⟩]).1.master,
        r.id = "P1" → r.region = some "RB")
    ∧ (∃ r ∈ (applyChanges ⟨sampleMaster, []⟩ [⟨"P1", some "RB", none⟩]).1.master,
        r.id = "P1")
    ∧ "P1" ∈ (applyChanges ⟨sampleMaster, []⟩ [⟨"P1", some "RB", none⟩]).1.changed
    ∧ (resetChanges sampleMaster
        (applyChanges ⟨sampleMaster, []⟩ [⟨"P1", some "RB", none⟩]).1).1.master = sampleMaster
    ∧ (resetChanges sampleMaster
        (applyChanges ⟨sampleMaster, []⟩ [⟨"P1", some "RB", none⟩]).1).1.changed = [] :=
  assignment_roundtrip sampleMaster [] "P1" "RB" (by decide)

/-- C6 counterexample: staging a region for the unknown id "P9" and
applying leaves the working copy unchanged, but — contrary to the claim —
the unknown id is added to the changed set and the action reports
`updates_made = True` ("Changes applied!"), not "no changes applied". -/
theorem unknown_id_cex :
    ¬ ((applyChanges ⟨sampleMaster, []⟩ [sampleEditUnknown]).1.master = sampleMaster
      ∧ sampleEditUnknown.pid ∉ (applyChanges ⟨sampleMaster, []⟩ [sampleEditUnknown]).1.changed
      ∧ (applyChanges ⟨sampleMaster, []⟩ [sampleEditUnknown]).2 = false) := by
  decide

/-- C6 amended: applying an edit whose id matches no row of the working
copy, with at least one staged value, leaves the working copy unchanged and
raises no error; however the code still adds the unknown id to the changed
set and reports the apply as having made changes (flag `true`). -/
theorem unknown_id_amended (D : List Row) (C : List String) (e : StagedEdit)
    (hp : e.pid ∉ D.map (fun r => r.id))
    (hs : (e.updRegion).isSome = true ∨ (e.updTurf).isSome = true) :
    (applyChanges ⟨D, C⟩ [e]).1.master = D
    ∧ e.pid ∈ (applyChanges ⟨D, C⟩ [e]).1.changed
    ∧ (applyChanges ⟨D, C⟩ [e]).2 = true := by
  have hcond : ((e.updRegion).isSome || (e.updTurf).isSome) = true :=
    Bool.or_eq_true _ _ |>.mpr hs
  have h1 : applyChanges ⟨D, C⟩ [e]
      = ({ master := D.map (updateRow e), changed := insertChanged C e.pid }, true) := by
    show applyOne (⟨D, C⟩, false) e = _
    unfold applyOne
    rw [if_pos hcond]
  have hmap : D.map (updateRow e) = D := by
    have hcong : D.map (updateRow e) = D.map (fun r => r) := by
      apply List.map_congr_left
      intro r hr
      unfold updateRow
      rw [if_neg]
      intro hb
      exact hp (List.mem_map.mpr ⟨r, hr, by simpa using hb⟩)
    rw [hcong, List.map_id']
  refine ⟨?_, ?_, ?_⟩
  · rw [h1]; exact hmap
  · rw [h1]; exact mem_insertChanged_self C e.pid
  · rw [h1]

/-- C6 witness: the amended behavior on a concrete unknown-id edit. -/
theorem unknown_id_witness :
    (applyChanges ⟨sampleMaster, []⟩ [sampleEditUnknown]).1.master = sampleMaster
    ∧ sampleEditUnknown.pid ∈ (applyChanges ⟨sampleMaster, []⟩ [sampleEditUnknown]).1.changed
    ∧ (applyChanges ⟨sampleMaster, []⟩ [sampleEditUnknown]).2 = true :=
  unknown_id_amended sampleMaster [] sampleEditUnknown (by decide) (Or.inl rfl)

theorem applyChanges_master (edits : List StagedEdit) (st : EditorState × Bool) :
    (edits.foldl applyOne st).1.master = st.1.master.map (applyEditsRow edits) := by
  induction edits generalizing st with
  | nil =>
    show st.1.master = st.1.master.map (fun r => r)
    rw [List.map_id']
  | cons e edits ih =>
    rw [List.foldl_cons, ih]
    have hstep : (applyOne st e).1.master = st.1.master.map (fun r =>
        if (e.updRegion).isSome || (e.updTurf).isSome then updateRow e r else r) := by
      unfold applyOne
      by_cases hcond : ((e.updRegion).isSome || (e.updTurf).isSome) = true
      · rw [if_pos hcond]
        apply List.map_congr_left
        intro r _
        rw [if_pos hcond]
      · rw [if_neg hcond]
        have : st.1.master.map (fun r =>
            if (e.updRegion).isSome || (e.updTurf).isSome then updateRow e r else r)
            = st.1.master.map (fun r => r) := by
          apply List.map_congr_left
          intro r _
          rw [if_neg hcond]
        rw [this, List.map_id']
    rw [hstep, List.map_map]
    apply List.map_congr_left
    intro r _
    rfl

theorem sameFrame_refl (r : Row) : sameFrame r r :=
  ⟨rfl, rfl, rfl, rfl, rfl, rfl, rfl, rfl, rfl⟩

theorem sameFrame_trans {a b c : Row} (h1 : sameFrame a b) (h2 : sameFrame b c) :
    sameFrame a c := by
  obtain ⟨e1, e2, e3, e4, e5, e6, e7, e8, e9⟩ := h1
  obtain ⟨f1, f2, f3, f4, f5, f6, f7, f8, f9⟩ := h2
  exact ⟨e1.trans f1, e2.trans f2, e3.trans f3, e4.trans f4, e5.trans f5,
         e6.trans f6, e7.trans f7, e8.trans f8, e9.trans f9⟩

theorem sameFrame_updateRow (e : StagedEdit) (r : Row) : sameFrame r (updateRow e r) := by
  unfold updateRow
  split
  · exact ⟨rfl, rfl, rfl, rfl, rfl, rfl, rfl, rfl, rfl⟩
  · exact sameFrame_refl r

theorem sameFrame_applyEditsRow (edits : List StagedEdit) (r : Row) :
    sameFrame r (applyEditsRow edits r) := by
  induction edits generalizing r with
  | nil => exact sameFrame_refl r
  | cons e edits ih =>
    show sameFrame r (applyEditsRow edits
      (if (e.updRegion).isSome || (e.updTurf).isSome then updateRow e r else r))
    refine sameFrame_trans ?_ (ih _)
    split
    · exact sameFrame_updateRow e r
    · exact sameFrame_refl r

theorem applyEditsRow_untouched (edits : List StagedEdit) (r : Row)
    (h : hasStagedValue edits r.id = false) : applyEditsRow edits r = r := by
  induction edits with
  | nil => rfl
  | cons e edits ih =>
    unfold hasStagedValue at h
    rw [List.any_cons, Bool.or_eq_false_iff] at h
    show applyEditsRow edits
      (if (e.updRegion).isSome || (e.updTurf).isSome then updateRow e r else r) = r
    by_cases hcond : ((e.updRegion).isSome || (e.updTurf).isSome) = true
    · have hpid : (e.pid == r.id) = false := by
        rcases Bool.and_eq_false_iff.mp h.1 with hb | hb
        · exact hb
        · exact absurd hcond (by rw [hb]; simp)
      have hup : updateRow e r = r := by
        unfold updateRow
        rw [if_neg]
        intro hb
        have hid : r.id = e.pid := by simpa using hb
        rw [hid] at hpid
        simp at hpid
      rw [if_pos hcond, hup]
      exact ih h.2
    · rw [if_neg hcond]
      exact ih h.2

/-- C9.  Frame property of Apply Changes: the working copy keeps its length;
every row keeps every column other than `Current Region` / `Current Turf`;
and a row whose precinct staged no value anywhere in the edit list is left
entirely unchanged. -/
theorem apply_frame (M : List Row) (C : List String) (edits : List StagedEdit) :
    (applyChanges ⟨M, C⟩ edits).1.master.length = M.length
    ∧ (∀ i : Nat, sameFrame (M.getD i defaultRow)
        ((applyChanges ⟨M, C⟩ edits).1.master.getD i defaultRow))
    ∧ (∀ i : Nat, hasStagedValue edits ((M.getD i defaultRow).id) = false →
        (applyChanges ⟨M, C⟩ edits).1.master.getD i defaultRow = M.getD i defaultRow) := by
  have hm : (applyChanges ⟨M, C⟩ edits).1.master = M.map (applyEditsRow edits) :=
    applyChanges_master edits (⟨M, C⟩, false)
  rw [hm]
  refine ⟨List.length_map M _, fun i => ?_, fun i h => ?_⟩
  · by_cases hi : i < M.length
    · rw [List.getD_eq_getElem?_getD, List.getD_eq_getElem?_getD, List.getElem?_map,
          List.getElem?_eq_getElem hi]
      exact sameFrame_applyEditsRow edits M[i]
    · rw [List.getD_eq_getElem?_getD, List.getD_eq_getElem?_getD, List.getElem?_map,
          List.getElem?_eq_none (Nat.le_of_not_lt hi)]
      exact sameFrame_refl defaultRow
  · by_cases hi : i < M.length
    · rw [List.getD_eq_getElem?_getD, List.getD_eq_getElem?_getD, List.getElem?_map,
          List.getElem?_eq_getElem hi]
      rw [List.getD_eq_getElem?_getD, List.getElem?_eq_getElem hi] at h
      exact applyEditsRow_untouched edits M[i] h
    · rw [List.getD_eq_getElem?_getD, List.getD_eq_getElem?_getD, List.getElem?_map,
          List.getElem?_eq_none (Nat.le_of_not_lt hi)]
      rfl

/-- C9 witness: applying a staged edit for "P1" leaves the row of the
unstaged precinct "P2" untouched. -/
theorem apply_frame_witness :
    (applyChanges ⟨sampleMaster, []⟩ [sampleEditKnown]).1.master.getD 1 defaultRow
      = sampleMaster.getD 1 defaultRow :=
  (apply_frame sampleMaster [] [sampleEditKnown]).2.2 1 (by decide)

end VaTurf

namespace VaTurf

theorem countP_pid_le_one (features : List Feature) (x : String)
    (hnd : (features.map (fun f => f.pid)).Nodup) :
    features.countP (fun f => f.pid == x) ≤ 1 := by
  induction features with
  | nil => simp
  | cons f fs ih =>
    rw [List.map_cons, List.nodup_cons] at hnd
    rw [List.countP_cons]
    by_cases h : (f.pid == x) = true
    · have hx : f.pid = x := by simpa using h
      have hz : fs.countP (fun g => g.pid == x) = 0 := by
        rw [List.countP_eq_zero]
        intro g hg hgx
        have : g.pid = f.pid := by
          have := (by simpa using hgx : g.pid = x)
          rw [this, hx]
        exact hnd.1 (this ▸ List.mem_map.mpr ⟨g, hg, rfl⟩)
      rw [hz, if_pos h]
    · rw [if_neg h]
      have := ih hnd.2
      omega

/-- C7 counterexample: a feature collection carrying two features with the
same id "P1" — the join keeps both, so the id contributes two features to
the joined subset, refuting the at-most-one clause of the claim. -/
theorem geometry_join_cex :
    ¬ ∀ x : String,
        (filteredFeatures sampleD7 sampleFeats7).countP (fun f => f.pid == x) ≤ 1 := by
  intro h
  exact absurd (h "P1") (by decide)

/-- C7 amended: a feature of the collection is in the joined subset iff its
id is among the RowSet's ids; and provided the feature collection carries at
most one feature per id (duplicate-free ids), each id contributes at most
one feature to the joined subset. -/
theorem geometry_join_amended (rs : RowSet) (features : List Feature)
    (hnd : (features.map (fun f => f.pid)).Nodup) :
    (∀ f ∈ features,
      (f ∈ filteredFeatures rs features ↔ f.pid ∈ rs.rows.map (fun r => r.id)))
    ∧ ∀ x : String, (filteredFeatures rs features).countP (fun f => f.pid == x) ≤ 1 := by
  constructor
  · intro f hf
    unfold filteredFeatures
    by_cases hlen : 0 < rs.rows.length
    · rw [if_pos hlen]
      rw [List.mem_filter]
      constructor
      · rintro ⟨-, hc⟩
        exact List.elem_iff.mp hc
      · intro hm
        exact ⟨hf, List.elem_iff.mpr hm⟩
    · rw [if_neg hlen]
      have hnil : rs.rows = [] := by
        cases h : rs.rows with
        | nil => rfl
        | cons a l => rw [h] at hlen; exact absurd (by simp) hlen
      constructor
      · intro h; exact absurd h (List.not_mem_nil f)
      · intro hm
        rw [hnil] at hm
        exact absurd hm (by simp)
  · intro x
    unfold filteredFeatures
    by_cases hlen : 0 < rs.rows.length
    · rw [if_pos hlen]
      exact le_trans ((List.filter_sublist features).countP_le _)
        (countP_pid_le_one features x hnd)
    · rw [if_neg hlen]; simp

/-- C7 witness: the membership contract on a duplicate-free collection. -/
theorem geometry_join_witness :
    ({ pid := "P1", turf := some "T1" } : Feature) ∈ filteredFeatures sampleD7 sampleFeats7b ↔
      "P1" ∈ sampleD7.rows.map (fun r => r.id) :=
  (geometry_join_amended sampleD7 sampleFeats7b (by decide)).1 _ (by decide)

theorem assignColors_find (ts : List String) (i : Nat) (t : String)
    (hnd : ts.Nodup) (hm : t ∈ ts) :
    (assignColors i ts).find? (fun p => p.1 == t)
      = some (t, palette.getD ((i + ts.indexOf t) % palette.length) "#3388ff") := by
  induction ts generalizing i with
  | nil => exact absurd hm (List.not_mem_nil t)
  | cons a ts ih =>
    rw [List.nodup_cons] at hnd
    show ((a, palette.getD (i % palette.length) "#3388ff")
        :: assignColors (i + 1) ts).find? (fun p => p.1 == t) = _
    by_cases hat : a = t
    · subst hat
      rw [List.find?_cons_of_pos _ (by simp)]
      rw [List.indexOf_cons_self]
      rfl
    · rw [List.find?_cons_of_neg _ (by simpa using hat)]
      have hmt : t ∈ ts := List.mem_of_ne_of_mem (fun h => hat h.symm) hm
      rw [ih (i + 1) hnd.2 hmt]
      rw [List.indexOf_cons_ne ts hat]
      have harith : i + Nat.succ (List.indexOf t ts) = i + 1 + List.indexOf t ts := by omega
      rw [harith]

theorem dictGet_eq_of_find (m : List (String × String)) (k d : String) (pr : String × String)
    (h : m.find? (fun p => p.1 == k) = some pr) : dictGet m k d = pr.2 := by
  unfold dictGet
  rw [h]
  rfl

theorem nodup_uniqueTurfs (rs : RowSet) : (uniqueTurfs rs).Nodup := by
  unfold uniqueTurfs
  split
  · exact nodup_sortedDedup _
  · exact List.nodup_nil

theorem assignColorsChart_find (rs : RowSet) (ts : List String) (i : Nat) (t : String)
    (hnd : ts.Nodup) (hm : t ∈ ts) :
    (assignColorsChart rs i ts).find? (fun p => p.1 == t)
      = some (t, dictGet (turfColorsMap rs) t
          (palette.getD ((i + ts.indexOf t) % palette.length) "#3388ff")) := by
  induction ts generalizing i with
  | nil => exact absurd hm (List.not_mem_nil t)
  | cons a ts ih =>
    rw [List.nodup_cons] at hnd
    show ((a, dictGet (turfColorsMap rs) a (palette.getD (i % palette.length) "#3388ff"))
        :: assignColorsChart rs (i + 1) ts).find? (fun p => p.1 == t) = _
    by_cases hat : a = t
    · subst hat
      rw [List.find?_cons_of_pos _ (by simp)]
      rw [List.indexOf_cons_self]
      rfl
    · rw [List.find?_cons_of_neg _ (by simpa using hat)]
      have hmt : t ∈ ts := List.mem_of_ne_of_mem (fun h => hat h.symm) hm
      rw [ih (i + 1) hnd.2 hmt]
      rw [List.indexOf_cons_ne ts hat]
      have harith : i + Nat.succ (List.indexOf t ts) = i + 1 + List.indexOf t ts := by omega
      rw [harith]

/-- C8 counterexample: with rows over turfs "TA" < "TB" but only the "TB"
precinct carrying a feature, "TB" is the first turf of the joined feature
set, yet the render colors it with `palette[1]` (its position among the
RowSet's turfs), not the claimed `palette[0]`. -/
theorem color_assignment_cex :
    "TB" ∈ joinedTurfs sampleD8 sampleFeats8
    ∧ dictGet (turfColorsMap sampleD8) "TB" "#3388ff"
        ≠ palette.getD (((joinedTurfs sampleD8 sampleFeats8).indexOf "TB") % palette.length)
            "#3388ff" := by
  constructor
  · decide
  · decide

/-- C8 amended: each distinct turf of the filtered RowSet (the set the code
enumerates) is assigned the palette entry at its position in the ascending
sort of those turfs, modulo the palette length — deterministic and
wrapping — and the chart's color map gives every such turf the same color
as the map. -/
theorem color_assignment_amended (rs : RowSet) :
    ∀ t ∈ uniqueTurfs rs,
      dictGet (turfColorsMap rs) t "#3388ff"
          = palette.getD (((uniqueTurfs rs).indexOf t) % palette.length) "#3388ff"
      ∧ dictGet (colorMapPrecinct rs) t "#3388ff"
          = dictGet (turfColorsMap rs) t "#3388ff" := by
  intro t hm
  have hndU : (uniqueTurfs rs).Nodup := nodup_uniqueTurfs rs
  have h1 := assignColors_find (uniqueTurfs rs) 0 t hndU hm
  rw [Nat.zero_add] at h1
  constructor
  · exact dictGet_eq_of_find (turfColorsMap rs) t "#3388ff" _ h1
  · have hmm : t ∈ allTurfsChart rs := by
      unfold uniqueTurfs at hm
      by_cases hlen : 0 < rs.rows.length
      · rw [if_pos hlen] at hm
        exact hm
      · rw [if_neg hlen] at hm
        exact absurd hm (List.not_mem_nil t)
    have hndC : (allTurfsChart rs).Nodup := nodup_sortedDedup _
    have h2 := assignColorsChart_find rs (allTurfsChart rs) 0 t hndC hmm
    have e1 := dictGet_eq_of_find (turfColorsMap rs) t "#3388ff" _ h1
    have e2 := dictGet_eq_of_find (turfColorsMap rs) t
      (palette.getD ((0 + (allTurfsChart rs).indexOf t) % palette.length) "#3388ff") _ h1
    have e3 := dictGet_eq_of_find (colorMapPrecinct rs) t "#3388ff" _ h2
    rw [e3, e1]
    exact e2

/-- C8 witness: the amended color rule on a concrete two-turf frame. -/
theorem color_assignment_witness :
    dictGet (turfColorsMap sampleD8) "TA" "#3388ff"
        = palette.getD (((uniqueTurfs sampleD8).indexOf "TA") % palette.length) "#3388ff"
    ∧ dictGet (colorMapPrecinct sampleD8) "TA" "#3388ff"
        = dictGet (turfColorsMap sampleD8) "TA" "#3388ff" :=
  color_assignment_amended sampleD8 "TA" (by decide)

end VaTurf
